import Mathlib

/-!
Verification of the benchmarking engines of the CS584DataStructures repository.

The development shallowly embeds the measurement engines of `plot.py`,
`sidgraphset.py` and `mixedsidbenchmarkplot.py`:

* Python integers are modelled as `ℤ` (or `ℕ` where the source only ever
  uses non-negative indices), wall-clock measurements as `ℚ` supplied by an
  explicit time oracle (one total time per timed range), and Python
  exceptions as `Except PyError`.
* `while` loops are modelled by fuel-indexed recursion; fuel exhaustion is
  reported as `Option.none` ("the loop did not terminate within the fuel"),
  and every theorem either supplies enough fuel or conditions on a
  terminating run.
* Calling an opaque operation function (`function`, `search`, `insert`,
  `delete`) is modelled by recording the call in a trace; the engines never
  inspect the result of such a call.
-/

/-- Python exceptions raised by the benchmarking code: `ValueError` with its
message, `IndexError` from an out-of-range sequence access,
`ZeroDivisionError` from dividing a measured time by an empty range length,
and `NameError` from reading a local variable that was never assigned. -/
inductive PyError where
  | valueError : String → PyError
  | indexError : PyError
  | zeroDivisionError : PyError
  | nameError : PyError
deriving DecidableEq, Repr

/-- Time oracle for `BenchmarkPlot`: `time a b` is the total wall time
`timeit` reports for running the loop body over indices `[a, b)`. -/
abbrev TimeOracle := ℕ → ℕ → ℚ

/-!
### `BenchmarkPlot._doBenchmark` (src/plot.py, lines 137-184)

The windowed benchmark engine.  The ramp-up loop `for i in range(0,
benchmark_start)` and the main `while p < stop` loop apply `function` to
`samples[i]`; we record the visited indices in a trace.  `Plot.benchmark`
(src/plot.py lines 26-31) returns the total time divided by `stop - start`
of the timed range, i.e. by the *actual* number of applications `q - p`.
-/

/-- One pass of the `while p < stop` loop of `BenchmarkPlot._doBenchmark`,
with explicit fuel.  Returns `none` if the fuel runs out (the Python loop
does not terminate when `benchmark_interval = 0`), otherwise the list of
indices `function` was applied to together with the recorded coordinates.
Each iteration times `[p, q)` with `q = min (p+L) stop`, records the point
`(p, time p q / (q - p))`, then applies `function` untimed over
`[q, min (p+I) stop)` and continues from `min (p+I) stop`. -/
def benchLoop (time : TimeOracle) (stop L I : ℕ) :
    ℕ → ℕ → Option (List ℕ × List (ℕ × ℚ))
  | 0, _ => none
  | fuel + 1, p =>
    if p < stop then
      let q := min (p + L) stop
      let pt : ℕ × ℚ := (p, time p q / ((q - p : ℕ) : ℚ))
      let p2 := min (p + I) stop
      match benchLoop time stop L I fuel p2 with
      | none => none
      | some (tr, cds) =>
        some (List.range' p (q - p) ++ List.range' q (p2 - q) ++ tr, pt :: cds)
    else
      some ([], [])

/-- `BenchmarkPlot._doBenchmark(function, samples, start, stop,
benchmark_start, benchmark_length, benchmark_interval)`.  Validates
`start ≤ benchmark_start ≤ stop`, applies `function` untimed over
`range(0, benchmark_start)` (note: the lower bound in the source is `0`,
not `start`), then runs the benchmark loop.  The result is the trace of
sample indices `function` was applied to and the coordinate list. -/
def doBenchmark (time : TimeOracle) (start stop ws L I : ℕ) :
    Except PyError (Option (List ℕ × List (ℕ × ℚ))) :=
  if ws < start then
    .error (.valueError "benchmark_start must be equal to or greater than start")
  else if stop < ws then
    .error (.valueError "benchmark_start must be less than or equal to stop")
  else
    match benchLoop time stop L I (stop - ws + 1) ws with
    | none => .ok none
    | some (tr, cds) => .ok (some (List.range' 0 ws ++ tr, cds))

example :
    doBenchmark (fun _ _ => 1) 0 3 0 2 2 =
      .ok (some ([0, 1, 2], [(0, 1/2), (2, 1)])) := by
  simp [doBenchmark, benchLoop, List.range']

example :
    doBenchmark (fun _ _ => 1) 0 10 2 2 5 =
      .ok (some ([0, 1, 2, 3, 4, 5, 6, 7, 8, 9], [(2, 1/2), (7, 1/2)])) := by
  simp [doBenchmark, benchLoop, List.range']

/-- Gluing two adjacent index ranges. -/
lemma range'_join (p q r : ℕ) (hpq : p ≤ q) (hqr : q ≤ r) :
    List.range' p (q - p) ++ List.range' q (r - q) = List.range' p (r - p) := by
  have h := List.range'_append p (q - p) (r - q) 1
  rw [one_mul, Nat.add_sub_cancel' hpq] at h
  rw [h]
  congr 1
  omega

/-- Unfolding `benchLoop` for one iteration of the `while p < stop` loop. -/
lemma benchLoop_step (time : TimeOracle) (stop L I fuel p : ℕ) (h : p < stop) :
    benchLoop time stop L I (fuel + 1) p =
      match benchLoop time stop L I fuel (min (p + I) stop) with
      | none => none
      | some (tr, cds) =>
        some (List.range' p (min (p + L) stop - p) ++
                List.range' (min (p + L) stop) (min (p + I) stop - min (p + L) stop) ++ tr,
              (p, time p (min (p + L) stop) / ((min (p + L) stop - p : ℕ) : ℚ)) :: cds) := by
  simp [benchLoop, h]

/-- Unfolding `benchLoop` when the loop guard fails. -/
lemma benchLoop_exit (time : TimeOracle) (stop L I fuel p : ℕ) (h : ¬ p < stop) :
    benchLoop time stop L I (fuel + 1) p = some ([], []) := by
  simp [benchLoop, h]

/-- Master characterization of the `while p < stop` loop of
`BenchmarkPlot._doBenchmark` for configurations with
`1 ≤ benchmark_length ≤ benchmark_interval`: starting at `p ≤ stop` with
enough fuel, the loop terminates, applies `function` to exactly the indices
`[p, stop)` in order, and records one point for each `k` with
`p + k * benchmark_interval < stop`, at position `p + k * benchmark_interval`,
whose value is the window's total time divided by the actual window length
`min (pos + L) stop - pos`. -/
lemma benchLoop_char (time : TimeOracle) (stop L I : ℕ) (hL : 1 ≤ L) (hLI : L ≤ I) :
    ∀ fuel p, p ≤ stop → stop - p < fuel →
    ∃ cds : List (ℕ × ℚ),
      benchLoop time stop L I fuel p = some (List.range' p (stop - p), cds) ∧
      cds = (List.range cds.length).map (fun k =>
        (p + k * I,
          time (p + k * I) (min (p + k * I + L) stop) /
            ((min (p + k * I + L) stop - (p + k * I) : ℕ) : ℚ))) ∧
      (∀ k, k < cds.length ↔ p + k * I < stop) := by
  intro fuel
  induction fuel with
  | zero => intro p hp hf; omega
  | succ fuel ih =>
    intro p hp hf
    by_cases hps : p < stop
    · have hI : 1 ≤ I := le_trans hL hLI
      have hp2le : min (p + I) stop ≤ stop := by omega
      have hp2lt : p < min (p + I) stop := by omega
      obtain ⟨cds', heq', hchar', hiff'⟩ := ih (min (p + I) stop) (by omega) (by omega)
      refine ⟨(p, time p (min (p + L) stop) / ((min (p + L) stop - p : ℕ) : ℚ)) :: cds',
        ?_, ?_, ?_⟩
      · rw [benchLoop_step time stop L I fuel p hps, heq',
          ← range'_join p (min (p + I) stop) stop (by omega) (by omega),
          ← range'_join p (min (p + L) stop) (min (p + I) stop) (by omega) (by omega)]
      · by_cases hIstop : p + I < stop
        · have hmin : min (p + I) stop = p + I := by omega
          rw [hmin] at hchar'
          simp only [List.length_cons, List.range_succ_eq_map, List.map_cons, List.map_map]
          refine List.cons_eq_cons.mpr ⟨?_, ?_⟩
          · simp
          · rw [hchar']
            simp only [List.length_map, List.length_range]
            refine List.map_congr_left ?_
            intro k _
            have hkk : p + I + k * I = p + (k + 1) * I := by ring
            simp only [Function.comp_apply, Nat.succ_eq_add_one, hkk]
        · have hmin : min (p + I) stop = stop := by omega
          rw [hmin] at hiff'
          have hlen0 : cds'.length = 0 := by
            by_contra hne
            have h0 : 0 < cds'.length := Nat.pos_of_ne_zero hne
            have := (hiff' 0).1 h0
            omega
          have hnil : cds' = [] := List.length_eq_zero.mp hlen0
          subst hnil
          show _ = List.map _ (List.range (0 + 1))
          rw [List.range_succ, List.range_zero]
          simp
      · intro k
        by_cases hIstop : p + I < stop
        · have hmin : min (p + I) stop = p + I := by omega
          rw [hmin] at hiff'
          cases k with
          | zero => simpa using hps
          | succ k =>
            have hk' := hiff' k
            have heqk : p + I + k * I = p + (k + 1) * I := by ring
            simp only [List.length_cons]
            omega
        · have hmin : min (p + I) stop = stop := by omega
          rw [hmin] at hiff'
          have hlen0 : cds'.length = 0 := by
            by_contra hne
            have h0 : 0 < cds'.length := Nat.pos_of_ne_zero hne
            have := (hiff' 0).1 h0
            omega
          simp only [List.length_cons, hlen0]
          cases k with
          | zero => simpa using hps
          | succ k =>
            constructor
            · omega
            · intro hk
              exfalso
              have hmono : p + I ≤ p + (k + 1) * I := by nlinarith
              omega
    · have hpe : p = stop := by omega
      refine ⟨[], ?_, ?_, ?_⟩
      · rw [benchLoop_exit time stop L I fuel p hps]
        simp [hpe]
      · simp
      · intro k
        simp only [List.length_nil]
        constructor
        · omega
        · intro hk
          exfalso
          have hmono : stop ≤ p + k * I := by omega
          omega

/-- Characterization of a terminating `BenchmarkPlot._doBenchmark` run under
a valid configuration: the trace is exactly the indices `[0, stop)` (ramp-up
covers `[0, window_start)` because the source loop starts at `0`), and the
coordinates are as in `benchLoop_char`. -/
lemma doBenchmark_char (time : TimeOracle) (start stop ws L I : ℕ)
    (h1 : start ≤ ws) (h2 : ws ≤ stop) (hL : 1 ≤ L) (hLI : L ≤ I) :
    ∃ cds : List (ℕ × ℚ),
      doBenchmark time start stop ws L I = .ok (some (List.range' 0 stop, cds)) ∧
      cds = (List.range cds.length).map (fun k =>
        (ws + k * I,
          time (ws + k * I) (min (ws + k * I + L) stop) /
            ((min (ws + k * I + L) stop - (ws + k * I) : ℕ) : ℚ))) ∧
      (∀ k, k < cds.length ↔ ws + k * I < stop) := by
  obtain ⟨cds, heq, hchar, hiff⟩ :=
    benchLoop_char time stop L I hL hLI (stop - ws + 1) ws h2 (by omega)
  refine ⟨cds, ?_, hchar, hiff⟩
  have hjoin := range'_join 0 ws stop (by omega) h2
  simp only [Nat.sub_zero] at hjoin
  simp only [doBenchmark, if_neg (by omega : ¬ ws < start),
    if_neg (by omega : ¬ stop < ws), heq, hjoin]

/-- C1: for every configuration with start ≤ window_start ≤ stop and
1 ≤ window_length ≤ window_interval, a run of `BenchmarkPlot._doBenchmark`
terminates, applies the function exactly once to every sample index in
[start, stop), never applies it to index stop, and the x-positions of the
recorded points are exactly window_start + k·window_interval for exactly
those k with window_start + k·window_interval < stop (the arithmetic
progression truncated at stop). -/
theorem claim_C1_windowed_visits (time : TimeOracle) (start stop ws L I : ℕ)
    (h1 : start ≤ ws) (h2 : ws ≤ stop) (hL : 1 ≤ L) (hLI : L ≤ I) :
    ∃ (tr : List ℕ) (cds : List (ℕ × ℚ)),
      doBenchmark time start stop ws L I = .ok (some (tr, cds)) ∧
      (∀ i, start ≤ i → i < stop → tr.count i = 1) ∧
      tr.count stop = 0 ∧
      cds.map Prod.fst = (List.range cds.length).map (fun k => ws + k * I) ∧
      (∀ k, k < cds.length ↔ ws + k * I < stop) := by
  obtain ⟨cds, heq, hchar, hiff⟩ := doBenchmark_char time start stop ws L I h1 h2 hL hLI
  refine ⟨List.range' 0 stop, cds, heq, ?_, ?_, ?_, hiff⟩
  · intro i hsi his
    refine List.count_eq_one_of_mem (List.nodup_range' _ _) ?_
    simp only [List.mem_range'_1]
    omega
  · refine List.count_eq_zero_of_not_mem ?_
    simp only [List.mem_range'_1]
    omega
  · conv_lhs => rw [hchar]
    simp [List.map_map, Function.comp]

/-- Witness for C1 at the configuration start=1, stop=7, window_start=2,
window_length=2, window_interval=3 with constant time oracle. -/
theorem claim_C1_witness :
    ∃ (tr : List ℕ) (cds : List (ℕ × ℚ)),
      doBenchmark (fun _ _ => 1) 1 7 2 2 3 = .ok (some (tr, cds)) ∧
      (∀ i, 1 ≤ i → i < 7 → tr.count i = 1) ∧
      tr.count 7 = 0 ∧
      cds.map Prod.fst = (List.range cds.length).map (fun k => 2 + k * 3) ∧
      (∀ k, k < cds.length ↔ 2 + k * 3 < 7) :=
  claim_C1_windowed_visits (fun _ _ => 1) 1 7 2 2 3
    (by norm_num) (by norm_num) (by norm_num) (by norm_num)

/-- C2 counterexample: with start=0, stop=3, window_start=0,
window_length=2, window_interval=2 and total time 1 for every window, the
final window [2,3) is truncated by stop. `Plot.benchmark` divides by the
actual count `stop - p = 1`, so the recorded measurement is 1, whereas
division by the nominal window_length 2 would give 1/2. -/
theorem claim_C2_counterexample :
    doBenchmark (fun _ _ => 1) 0 3 0 2 2 =
      .ok (some ([0, 1, 2], [(0, 1/2), (2, 1)])) ∧ ((1 : ℚ) ≠ 1 / 2) := by
  constructor
  · simp [doBenchmark, benchLoop, List.range']
  · norm_num

/-- C2 amended: in the windowed benchmark engine, the recorded measurement
of a window whose start position p satisfies stop - p < window_length (a
window truncated by stop) is the window's total time divided by the actual
number of operations timed, stop - p, not by the nominal window_length. -/
theorem claim_C2_truncated_window_divisor (time : TimeOracle) (start stop ws L I : ℕ)
    (h1 : start ≤ ws) (h2 : ws ≤ stop) (hL : 1 ≤ L) (hLI : L ≤ I) :
    ∀ (tr : List ℕ) (cds : List (ℕ × ℚ)),
      doBenchmark time start stop ws L I = .ok (some (tr, cds)) →
      ∀ k, k < cds.length → stop - (ws + k * I) < L →
        cds.getD k (0, 0) =
          (ws + k * I, time (ws + k * I) stop / ((stop - (ws + k * I) : ℕ) : ℚ)) := by
  intro tr cds hrun k hk htrunc
  obtain ⟨cds0, heq, hchar, hiff⟩ := doBenchmark_char time start stop ws L I h1 h2 hL hLI
  rw [hrun] at heq
  have hcds : cds = cds0 := by
    have h := Except.ok.inj heq
    have h2o := Option.some.inj h
    exact (Prod.ext_iff.mp h2o).2
  subst hcds
  have hklt : ws + k * I < stop := (hiff k).1 hk
  have hmin : min (ws + k * I + L) stop = stop := by omega
  have hopt : cds[k]? = some (ws + k * I,
      time (ws + k * I) (min (ws + k * I + L) stop) /
        ((min (ws + k * I + L) stop - (ws + k * I) : ℕ) : ℚ)) := by
    conv_lhs => rw [hchar]
    rw [List.getElem?_map, List.getElem?_range hk]
    rfl
  rw [List.getD_eq_getElem?_getD, hopt, hmin]
  rfl

/-- Witness for C2 (amended) at the configuration of the counterexample:
the truncated window at position 2 records total time divided by the
actual count 1. -/
theorem claim_C2_witness :
    doBenchmark (fun _ _ => 1) 0 3 0 2 2 =
      .ok (some ([0, 1, 2], [(0, 1/2), (2, 1)])) ∧
    ([(0, 1/2), (2, 1)] : List (ℕ × ℚ)).getD 1 (0, 0) =
      (0 + 1 * 2, (fun _ _ => (1 : ℚ)) (0 + 1 * 2) 3 / ((3 - (0 + 1 * 2) : ℕ) : ℚ)) :=
  ⟨by simp [doBenchmark, benchLoop, List.range'],
    claim_C2_truncated_window_divisor (fun _ _ => 1) 0 3 0 2 2
      (by norm_num) (by norm_num) (by norm_num) (by norm_num)
      [0, 1, 2] [(0, 1/2), (2, 1)]
      (by simp [doBenchmark, benchLoop, List.range'])
      1 (by norm_num) (by norm_num)⟩

/-!
### `BenchmarkPlot.__init__` (src/plot.py, lines 40-135): the multi-pass combiner
-/

/-- A Python `for`-loop that applies `f` to each element, aborting at the
first exception (explicit recursion instead of `mapM`, for proof
convenience). -/
def exceptMapList (f : α → Except PyError β) : List α → Except PyError (List β)
  | [] => .ok []
  | a :: l =>
    match f a with
    | .error e => .error e
    | .ok b =>
      match exceptMapList f l with
      | .error e => .error e
      | .ok bs => .ok (b :: bs)

lemma exceptMapList_ok_of {f : α → Except PyError β} {F : α → β} :
    ∀ {l : List α}, (∀ a ∈ l, f a = .ok (F a)) → exceptMapList f l = .ok (l.map F)
  | [], _ => rfl
  | a :: l, h => by
    have ha := h a (by simp)
    have hl := exceptMapList_ok_of (f := f) (F := F) (l := l)
      (fun b hb => h b (by simp [hb]))
    simp [exceptMapList, ha, hl]

/-- `statistics.median`, over ℚ: sort ascending; the middle element for an
odd count, the mean of the two middle elements for an even count.  (Python
raises `StatisticsError` on empty input; the engines only pass nonempty
lists, and this model returns 0 there.) -/
def pyMedian (l : List ℚ) : ℚ :=
  let s := List.insertionSort (· ≤ ·) l
  if l.length % 2 = 1 then s.getD (l.length / 2) 0
  else (s.getD (l.length / 2 - 1) 0 + s.getD (l.length / 2) 0) / 2

/-- `statistics.mean`, over ℚ. -/
def pyMean (l : List ℚ) : ℚ := l.sum / l.length

/-- Running the `for i in range(repeat)` loop of `BenchmarkPlot.__init__`:
each pass is a full `_doBenchmark` run; the first raising pass aborts the
construction and a diverging pass makes the whole construction diverge
(`none`).  Only the returned coordinate lists are kept (`runs[i]`). -/
def collectRuns : List (Except PyError (Option (List ℕ × List (ℕ × ℚ)))) →
    Except PyError (Option (List (List (ℕ × ℚ))))
  | [] => .ok (some [])
  | x :: xs =>
    match x with
    | .error e => .error e
    | .ok none => .ok none
    | .ok (some (_, cds)) =>
      match collectRuns xs with
      | .error e => .error e
      | .ok none => .ok none
      | .ok (some rest) => .ok (some (cds :: rest))

/-- The combination loop of `BenchmarkPlot.__init__` (`for j in
range(len(runs[0])): for i in range(repeat): yvalues[i] = runs[i][j][1];
self.coordinates[j] = (runs[0][j][0], combine_method(yvalues))`), with
Python's `IndexError` on an out-of-range access. -/
def combineCoords (runsV : List (List (ℕ × ℚ))) (r0 : List (ℕ × ℚ))
    (combine : List ℚ → ℚ) : Except PyError (List (ℕ × ℚ)) :=
  exceptMapList (fun j =>
    match exceptMapList (fun run =>
        match run[j]? with
        | some c => Except.ok c.2
        | none => Except.error PyError.indexError) runsV with
    | .error e => .error e
    | .ok ys =>
      match r0[j]? with
      | some c0 => .ok (c0.1, combine ys)
      | none => .error PyError.indexError) (List.range r0.length)

/-- `BenchmarkPlot.__init__(function, samples, start, stop, benchmark_start,
benchmark_length, benchmark_interval, repeat, combine_method)`.  The guard
in the source is `if repeat < 0: raise ValueError("repeat must be a
positive integer.")`.  With `repeat == 1` a single pass's coordinates are
used directly; otherwise `repeat` passes are run (`times i` is pass `i`'s
time oracle) and combined; with `repeat == 0` the combination step reads
`runs[0]` of the empty run list, an `IndexError`. -/
def benchmarkPlotInit (times : ℕ → TimeOracle) (start stop ws L I : ℕ)
    (rep : ℤ) (combine : List ℚ → ℚ) :
    Except PyError (Option (List (ℕ × ℚ))) :=
  if rep < 0 then .error (.valueError "repeat must be a positive integer.")
  else if rep = 1 then
    match doBenchmark (times 0) start stop ws L I with
    | .error e => .error e
    | .ok none => .ok none
    | .ok (some (_, cds)) => .ok (some cds)
  else
    match collectRuns ((List.range rep.toNat).map
        (fun i => doBenchmark (times i) start stop ws L I)) with
    | .error e => .error e
    | .ok none => .ok none
    | .ok (some runsV) =>
      match runsV.head? with
      | none => .error PyError.indexError
      | some r0 =>
        match combineCoords runsV r0 combine with
        | .error e => .error e
        | .ok cds => .ok (some cds)

lemma orderedInsert_replicate (n : ℕ) (y : ℚ) :
    List.orderedInsert (· ≤ ·) y (List.replicate n y) = List.replicate (n + 1) y := by
  cases n with
  | zero => rfl
  | succ n => simp [List.replicate_succ, List.orderedInsert, le_refl]

lemma insertionSort_replicate (n : ℕ) (y : ℚ) :
    List.insertionSort (· ≤ ·) (List.replicate n y) = List.replicate n y := by
  induction n with
  | zero => rfl
  | succ n ih =>
    rw [List.replicate_succ, List.insertionSort, ih, orderedInsert_replicate]
    rfl

lemma getD_replicate_self (n k : ℕ) (hk : k < n) (y : ℚ) :
    (List.replicate n y).getD k 0 = y := by
  rw [List.getD_eq_getElem _ _ (by simpa using hk), List.getElem_replicate]

/-- The median of `m ≥ 1` copies of the same value is that value. -/
lemma pyMedian_replicate (m : ℕ) (hm : 1 ≤ m) (y : ℚ) :
    pyMedian (List.replicate m y) = y := by
  unfold pyMedian
  rw [insertionSort_replicate]
  simp only [List.length_replicate]
  by_cases h : m % 2 = 1
  · rw [if_pos h, getD_replicate_self _ _ (by omega)]
  · rw [if_neg h, getD_replicate_self _ _ (by omega), getD_replicate_self _ _ (by omega)]
    ring

/-- The mean of `m ≥ 1` copies of the same value is that value. -/
lemma pyMean_replicate (m : ℕ) (hm : 1 ≤ m) (y : ℚ) :
    pyMean (List.replicate m y) = y := by
  unfold pyMean
  rw [List.sum_replicate, List.length_replicate, nsmul_eq_mul]
  have hm0 : (m : ℚ) ≠ 0 := by exact_mod_cast (by omega : m ≠ 0)
  field_simp

lemma map_const_eq_replicate (l : List α) (b : β) :
    l.map (fun _ => b) = List.replicate l.length b := by
  induction l with
  | nil => rfl
  | cons a l ih => simp [List.replicate_succ, ih]

lemma collectRuns_const (v : List ℕ × List (ℕ × ℚ)) :
    ∀ (l : List ℕ),
      collectRuns (l.map (fun _ => .ok (some v))) = .ok (some (l.map (fun _ => v.2)))
  | [] => rfl
  | a :: l => by
    simp only [List.map_cons, collectRuns, collectRuns_const v l]

lemma map_getD_range {α : Type} (d : α) :
    ∀ l : List α, (List.range l.length).map (fun j => l.getD j d) = l
  | [] => rfl
  | c :: l => by
    simp only [List.length_cons, List.range_succ_eq_map, List.map_cons, List.map_map]
    congr 1
    have hfun : ∀ j ∈ List.range l.length,
        ((fun j => (c :: l).getD j d) ∘ Nat.succ) j = l.getD j d := by
      intro j _
      rfl
    rw [List.map_congr_left hfun]
    exact map_getD_range d l

/-- The combination loop applied to identical passes reproduces the pass. -/
lemma combineCoords_const (n : ℕ) (cds : List (ℕ × ℚ)) (combine : List ℚ → ℚ)
    (hcomb : ∀ y : ℚ, combine (List.replicate n y) = y) :
    combineCoords ((List.range n).map (fun _ => cds)) cds combine = .ok cds := by
  unfold combineCoords
  have hstep : ∀ j ∈ List.range cds.length,
      (match exceptMapList (fun run =>
          match run[j]? with
          | some c => Except.ok c.2
          | none => Except.error PyError.indexError) ((List.range n).map (fun _ => cds)) with
      | .error e => .error e
      | .ok ys =>
        match cds[j]? with
        | some c0 => .ok (c0.1, combine ys)
        | none => .error PyError.indexError) = Except.ok (cds.getD j (0, 0)) := by
    intro j hj
    have hjlt : j < cds.length := List.mem_range.mp hj
    have hjget : cds[j]? = some cds[j] := List.getElem?_eq_getElem hjlt
    have hinner : exceptMapList (fun run =>
        match run[j]? with
        | some c => Except.ok c.2
        | none => Except.error PyError.indexError) ((List.range n).map (fun _ => cds)) =
        .ok (((List.range n).map (fun _ => cds)).map (fun _ => (cds[j]).2)) := by
      refine exceptMapList_ok_of ?_
      intro run hrun
      have : run = cds := by
        simp only [List.mem_map] at hrun
        exact hrun.choose_spec.2.symm
      subst this
      rw [hjget]
    rw [hinner, hjget, List.getD_eq_getElem _ _ hjlt]
    show Except.ok ((cds[j]).1,
      combine (((List.range n).map (fun _ => cds)).map (fun _ => (cds[j]).2))) =
      Except.ok cds[j]
    have hrep : (((List.range n).map (fun _ => cds)).map (fun _ => (cds[j]).2)) =
        List.replicate n (cds[j]).2 := by
      rw [map_const_eq_replicate, List.length_map, List.length_range]
    rw [hrep, hcomb]
  rw [exceptMapList_ok_of (F := fun j => cds.getD j (0, 0)) hstep, map_getD_range]

/-- C6: for a valid windowed-benchmark configuration, any repeat ≥ 1, and
identical measurements across all passes (all pass oracles equal), combining
the repeat passes with median or with mean yields exactly the single-pass
coordinate series. -/
theorem claim_C6_combiner_idempotent (times : ℕ → TimeOracle)
    (start stop ws L I : ℕ) (rep : ℤ) (combine : List ℚ → ℚ)
    (hTimes : ∀ i, times i = times 0) (hrep : 1 ≤ rep)
    (h1 : start ≤ ws) (h2 : ws ≤ stop) (hL : 1 ≤ L) (hLI : L ≤ I)
    (hcomb : combine = pyMedian ∨ combine = pyMean) :
    benchmarkPlotInit times start stop ws L I rep combine =
      benchmarkPlotInit times start stop ws L I 1 combine := by
  by_cases hone : rep = 1
  · rw [hone]
  · have hge2 : 2 ≤ rep := by omega
    have hn : 1 ≤ rep.toNat := by omega
    obtain ⟨cds, heq, hchar, hiff⟩ :=
      doBenchmark_char (times 0) start stop ws L I h1 h2 hL hLI
    have hrhs : benchmarkPlotInit times start stop ws L I 1 combine = .ok (some cds) := by
      rw [benchmarkPlotInit, if_neg (by norm_num), if_pos rfl, heq]
    rw [hrhs, benchmarkPlotInit, if_neg (by omega), if_neg hone]
    have hmap : (List.range rep.toNat).map (fun i => doBenchmark (times i) start stop ws L I)
        = (List.range rep.toNat).map
            (fun _ => .ok (some (List.range' 0 stop, cds))) := by
      refine List.map_congr_left ?_
      intro i _
      rw [hTimes i, heq]
    rw [hmap, collectRuns_const (List.range' 0 stop, cds) (List.range rep.toNat)]
    dsimp only
    have hhead : ((List.range rep.toNat).map (fun _ => cds)).head? = some cds := by
      cases htn : rep.toNat with
      | zero => omega
      | succ n =>
        rw [List.range_succ_eq_map]
        rfl
    have hcombRep : ∀ y : ℚ, combine (List.replicate rep.toNat y) = y := by
      intro y
      rcases hcomb with hmed | hmea
      · rw [hmed, pyMedian_replicate rep.toNat hn]
      · rw [hmea, pyMean_replicate rep.toNat hn]
    have hccc := combineCoords_const rep.toNat cds combine hcombRep
    simp only [hhead, hccc]

/-- Witness for C6: with constant time oracles, three passes combined with
median give the same series as a single pass. -/
theorem claim_C6_witness :
    benchmarkPlotInit (fun _ _ _ => 1) 0 4 0 1 2 3 pyMedian =
      benchmarkPlotInit (fun _ _ _ => 1) 0 4 0 1 2 1 pyMedian :=
  claim_C6_combiner_idempotent (fun _ _ _ => 1) 0 4 0 1 2 3 pyMedian
    (fun _ => rfl) (by norm_num) (by norm_num) (by norm_num) (by norm_num)
    (by norm_num) (Or.inl rfl)

/-- C7: the source guard is `if repeat < 0`, although its own error message
says "repeat must be a positive integer."  Hence `repeat = -1` raises the
configuration `ValueError`, but `repeat = 0` (also `< 1`) slips past the
guard and instead crashes with an `IndexError` when the combination step
reads `runs[0]` of the empty run list — not a configuration error. -/
theorem claim_C7_repeat_guard :
    benchmarkPlotInit (fun _ _ _ => 1) 0 4 0 1 2 (-1) pyMedian =
      .error (.valueError "repeat must be a positive integer.") ∧
    benchmarkPlotInit (fun _ _ _ => 1) 0 4 0 1 2 0 pyMedian =
      .error .indexError ∧
    ∀ s, PyError.indexError ≠ PyError.valueError s := by
  refine ⟨?_, ?_, ?_⟩
  · rw [benchmarkPlotInit, if_pos (by norm_num)]
  · rw [benchmarkPlotInit, if_neg (by norm_num), if_neg (by norm_num)]
    rfl
  · intro s h
    cases h

/-!
### `SIDBenchmark` (src/sidgraphset.py, lines 137-328)

The three-phase search/insert/delete benchmark.  All loop variables are
Python ints, modelled as ℤ.  The opaque `search`/`insert`/`delete`
functions are modelled by recording each call `(kind, sample value)` in a
trace.  Sample streams are finite lists; `samples[i]` raises `IndexError`
out of range (with Python's negative-index wrap-around).
-/

/-- The three operations a SID benchmark calls. -/
inductive SIDOp where
  | search
  | insert
  | delete
deriving DecidableEq, Repr

/-- Time oracle for SID benchmarks: `time kind a b` is the total wall time
of the timed batch running `kind` over indices `[a, b)` of that kind's
sample stream. -/
abbrev SIDTimeOracle := SIDOp → ℤ → ℤ → ℚ

/-- Python `range(a, b)` (step 1) over ℤ: empty when `b ≤ a`. -/
def intRange (a b : ℤ) : List ℤ := (List.range (b - a).toNat).map (fun k => a + k)

/-- Python sequence indexing `l[i]`: wrap-around for `-len ≤ i < 0`,
`IndexError` outside `[-len, len)`. -/
def pyGet (l : List ℤ) (i : ℤ) : Except PyError ℤ :=
  if 0 ≤ i ∧ i < (l.length : ℤ) then .ok (l.getD i.toNat 0)
  else if -(l.length : ℤ) ≤ i ∧ i < 0 then .ok (l.getD ((l.length : ℤ) + i).toNat 0)
  else .error .indexError

/-- Calling `f(samples[i])` for `i in range(a, b)`, where `f` is the opaque
`kind` operation: returns the trace of calls, or the first `IndexError`. -/
def benchCalls (kind : SIDOp) (samples : List ℤ) (a b : ℤ) :
    Except PyError (List (SIDOp × ℤ)) :=
  exceptMapList (fun i =>
    match pyGet samples i with
    | .error e => .error e
    | .ok v => .ok (kind, v)) (intRange a b)

/-- `Plot.benchmark(f, samples, a, b)` for a SID operation: run the batch
(recording the calls), then divide the total time by `b - a`
(`ZeroDivisionError` when `b = a`). -/
def sidBenchmarkCall (time : SIDTimeOracle) (kind : SIDOp) (samples : List ℤ)
    (a b : ℤ) : Except PyError (List (SIDOp × ℤ) × ℚ) :=
  match benchCalls kind samples a b with
  | .error e => .error e
  | .ok tr =>
    if b - a = 0 then .error .zeroDivisionError
    else .ok (tr, time kind a b / ((b - a : ℤ) : ℚ))

/-- State returned by the grow phase: final `search_index`, final
`insert_index`, the last value of `last_benchmark` (none if the loop body
never ran — reading it then is Python's `NameError`), the call trace, and
the search/insert plot points. -/
structure GrowOut where
  si : ℤ
  ii : ℤ
  lastB : Option ℤ
  trace : List (SIDOp × ℤ)
  searchPts : List (ℤ × ℚ)
  insertPts : List (ℤ × ℚ)
deriving DecidableEq, Repr

/-- The grow phase (`while insert_index < stop`, sidgraphset.py lines
254-294), with fuel.  Each iteration: save `last_benchmark`; set
`next_benchmark = min(next_benchmark + bm_interval, stop)`; time
`bm_length` searches, recording the point at x = `insert_index`; time
`bm_length` inserts, recording the point at x = `insert_index`; insert
untimed until `insert_index == next_benchmark`. -/
def growLoop (time : SIDTimeOracle) (ss ins : List ℤ) (stop L I : ℤ) :
    ℕ → ℤ → ℤ → ℤ → Option ℤ → Except PyError (Option GrowOut)
  | 0, _, _, _, _ => .ok none
  | fuel + 1, si, ii, nb, lastB =>
    if ii < stop then
      match sidBenchmarkCall time .search ss si (si + L) with
      | .error e => .error e
      | .ok (trS, tS) =>
        match sidBenchmarkCall time .insert ins ii (ii + L) with
        | .error e => .error e
        | .ok (trI, tI) =>
          match benchCalls .insert ins (ii + L) (min (nb + I) stop) with
          | .error e => .error e
          | .ok trU =>
            match growLoop time ss ins stop L I fuel (si + L)
                (max (ii + L) (min (nb + I) stop)) (min (nb + I) stop) (some nb) with
            | .error e => .error e
            | .ok none => .ok none
            | .ok (some out) =>
              .ok (some { out with
                trace := trS ++ trI ++ trU ++ out.trace,
                searchPts := (ii, tS) :: out.searchPts,
                insertPts := (ii, tI) :: out.insertPts })
    else
      .ok (some ⟨si, ii, lastB, [], [], []⟩)

/-- State returned by the shrink phase: final `delete_index`, final
`data_structure_size`, the call trace, and the delete plot points. -/
structure ShrinkOut where
  di : ℤ
  size : ℤ
  trace : List (SIDOp × ℤ)
  deletePts : List (ℤ × ℚ)
deriving DecidableEq, Repr

/-- The shrink phase (`while data_structure_size > bm_start`,
sidgraphset.py lines 302-328), with fuel.  Each iteration: delete untimed
until `data_structure_size == next_benchmark`; subtract `bm_length` from
the size; time `bm_length` deletes, recording the point at the decreased
size; decrease `next_benchmark` by `bm_interval`. -/
def shrinkLoop (time : SIDTimeOracle) (ds : List ℤ) (bmStart L I : ℤ) :
    ℕ → ℤ → ℤ → ℤ → Except PyError (Option ShrinkOut)
  | 0, _, _, _ => .ok none
  | fuel + 1, di, size, nb =>
    if bmStart < size then
      match benchCalls .delete ds di (di + max (size - nb) 0) with
      | .error e => .error e
      | .ok trU =>
        match sidBenchmarkCall time .delete ds (di + max (size - nb) 0)
            (di + max (size - nb) 0 + L) with
        | .error e => .error e
        | .ok (trB, tD) =>
          match shrinkLoop time ds bmStart L I fuel (di + max (size - nb) 0 + L)
              (min size nb - L) (nb - I) with
          | .error e => .error e
          | .ok none => .ok none
          | .ok (some out) =>
            .ok (some { out with
              trace := trU ++ trB ++ out.trace,
              deletePts := (min size nb - L, tD) :: out.deletePts })
    else
      .ok (some ⟨di, size, [], []⟩)

/-- The full result of a `SIDBenchmark` run: the interleaved call trace,
the three plots, the value of `insert_index` at the end of the grow phase,
and the final `data_structure_size`. -/
structure SIDResult where
  trace : List (SIDOp × ℤ)
  searchPts : List (ℤ × ℚ)
  insertPts : List (ℤ × ℚ)
  deletePts : List (ℤ × ℚ)
  growEndII : ℤ
  finalSize : ℤ
deriving DecidableEq, Repr

/-- `SIDBenchmark.__init__` + `_doBenchmark` of src/sidgraphset.py: guard
`bm_start < bm_length` (ValueError); ramp-up inserts over
`insert_samples[0, bm_start)`; grow phase; `next_benchmark =
last_benchmark + bm_length` (NameError if the grow loop never ran); shrink
phase.  `.ok none` models a diverging run (fuel exhaustion). -/
def sidBenchmark (time : SIDTimeOracle) (ss ins ds : List ℤ)
    (stop bmStart L I : ℤ) : Except PyError (Option SIDResult) :=
  if bmStart < L then
    .error (.valueError "bm_start must be no smaller than bm_length.")
  else
    match benchCalls .insert ins 0 bmStart with
    | .error e => .error e
    | .ok trR =>
      match growLoop time ss ins stop L I ((stop - bmStart).toNat + 1)
          0 bmStart bmStart none with
      | .error e => .error e
      | .ok none => .ok none
      | .ok (some g) =>
        match g.lastB with
        | none => .error .nameError
        | some lb =>
          match shrinkLoop time ds bmStart L I ((g.ii - bmStart).toNat + 1)
              0 g.ii (lb + L) with
          | .error e => .error e
          | .ok none => .ok none
          | .ok (some s) =>
            .ok (some ⟨trR ++ g.trace ++ s.trace, g.searchPts, g.insertPts,
              s.deletePts, g.ii, s.size⟩)

/-- A fully evaluated `SIDBenchmark` run: stop=4, bm_start=2, bm_length=2,
bm_interval=2, search stream of length 3, insert and delete streams of
length 4, constant unit time oracle.  The run completes with full output:
one point per plot, grow phase ending at insert_index 4 and final size 2. -/
lemma sidRunExample :
    sidBenchmark (fun _ _ _ => 1) [10, 11, 12] [20, 21, 22, 23] [30, 31, 32, 33]
      4 2 2 2 =
    .ok (some ⟨[(.insert, 20), (.insert, 21), (.search, 10), (.search, 11),
        (.insert, 22), (.insert, 23), (.delete, 30), (.delete, 31)],
      [(2, 1/2)], [(2, 1/2)], [(2, 1/2)], 4, 2⟩) := by
  norm_num [sidBenchmark, growLoop, shrinkLoop, benchCalls, sidBenchmarkCall,
    pyGet, intRange, exceptMapList, List.range_succ]
  decide

/-- Success-conditioned grow-phase invariant: if the grow loop returns
normally from a state with `insert_index = next_benchmark ≤ stop`,
`bm_length ≤ bm_interval` and `bm_interval ∣ stop - next_benchmark`, then
the final `insert_index` is exactly `stop`, and `last_benchmark` ends as
`stop - bm_interval` whenever the loop body ran at least once. -/
lemma growLoop_aligned (time : SIDTimeOracle) (ss ins : List ℤ) (stop L I : ℤ)
    (hLI : L ≤ I) :
    ∀ (fuel : ℕ) (si ii nb : ℤ) (lastB : Option ℤ) (out : GrowOut),
      ii = nb → nb ≤ stop → I ∣ stop - nb →
      growLoop time ss ins stop L I fuel si ii nb lastB = .ok (some out) →
      out.ii = stop ∧ out.lastB = (if ii < stop then some (stop - I) else lastB) := by
  intro fuel
  induction fuel with
  | zero =>
    intro si ii nb lastB out h1 h2 h3 hrun
    simp [growLoop] at hrun
  | succ fuel ih =>
    intro si ii nb lastB out h1 h2 h3 hrun
    by_cases hlt : ii < stop
    · simp only [growLoop, if_pos hlt] at hrun
      rcases hS : sidBenchmarkCall time .search ss si (si + L) with e | ⟨trS, tS⟩ <;>
        rw [hS] at hrun
      · simp at hrun
      rcases hI2 : sidBenchmarkCall time .insert ins ii (ii + L) with e | ⟨trI, tI⟩ <;>
        rw [hI2] at hrun
      · simp at hrun
      rcases hU : benchCalls .insert ins (ii + L) (min (nb + I) stop) with e | trU <;>
        rw [hU] at hrun
      · simp at hrun
      rcases hR : growLoop time ss ins stop L I fuel (si + L)
          (max (ii + L) (min (nb + I) stop)) (min (nb + I) stop) (some nb) with
          e | o <;> rw [hR] at hrun
      · simp at hrun
      rcases o with _ | out'
      · simp at hrun
      · have hIle := Int.le_of_dvd (by omega : 0 < stop - nb) h3
        have hinv1 : max (ii + L) (min (nb + I) stop) = min (nb + I) stop := by omega
        have hinv2 : min (nb + I) stop ≤ stop := by omega
        have hinv3 : I ∣ stop - min (nb + I) stop := by
          by_cases hc : nb + I ≤ stop
          · rw [min_eq_left hc]
            have : stop - (nb + I) = (stop - nb) - I := by ring
            rw [this]
            exact dvd_sub h3 dvd_rfl
          · rw [min_eq_right (by omega)]
            simp
        obtain ⟨hii', hlb'⟩ := ih (si + L) (max (ii + L) (min (nb + I) stop))
          (min (nb + I) stop) (some nb) out' hinv1 hinv2 hinv3 hR
        simp only at hrun
        have hout : out = { out' with
            trace := trS ++ trI ++ trU ++ out'.trace,
            searchPts := (ii, tS) :: out'.searchPts,
            insertPts := (ii, tI) :: out'.insertPts } := by
          simpa using hrun.symm
        subst hout
        refine ⟨hii', ?_⟩
        rw [if_pos hlt]
        by_cases hlt' : max (ii + L) (min (nb + I) stop) < stop
        · rw [if_pos hlt'] at hlb'
          exact hlb'
        · rw [if_neg hlt'] at hlb'
          have hnb : nb = stop - I := by
            have hle := Int.le_of_dvd (by omega : 0 < stop - nb) h3
            omega
          rw [hlb', hnb]
    · simp only [growLoop, if_neg hlt] at hrun
      have hout : out = ⟨si, ii, lastB, [], [], []⟩ := by
        simpa using hrun.symm
      subst hout
      refine ⟨by simp; omega, by rw [if_neg hlt]⟩

/-- Success-conditioned shrink-phase invariant: if the shrink loop returns
normally from a state with `next_benchmark = size - bm_interval +
bm_length`, `bm_start ≤ size`, `bm_length ≤ bm_interval` and
`bm_interval ∣ size - bm_start`, the final size is exactly `bm_start`. -/
lemma shrinkLoop_aligned (time : SIDTimeOracle) (ds : List ℤ) (bmStart L I : ℤ)
    (hLI : L ≤ I) :
    ∀ (fuel : ℕ) (di size nb : ℤ) (out : ShrinkOut),
      nb = size - I + L → bmStart ≤ size → I ∣ size - bmStart →
      shrinkLoop time ds bmStart L I fuel di size nb = .ok (some out) →
      out.size = bmStart := by
  intro fuel
  induction fuel with
  | zero =>
    intro di size nb out h1 h2 h3 hrun
    simp [shrinkLoop] at hrun
  | succ fuel ih =>
    intro di size nb out h1 h2 h3 hrun
    by_cases hlt : bmStart < size
    · simp only [shrinkLoop, if_pos hlt] at hrun
      rcases hU : benchCalls .delete ds di (di + max (size - nb) 0) with e | trU <;>
        rw [hU] at hrun
      · simp at hrun
      rcases hB : sidBenchmarkCall time .delete ds (di + max (size - nb) 0)
          (di + max (size - nb) 0 + L) with e | vB <;> rw [hB] at hrun
      · simp at hrun
      rcases vB with ⟨trB, tD⟩
      rcases hR : shrinkLoop time ds bmStart L I fuel (di + max (size - nb) 0 + L)
          (min size nb - L) (nb - I) with e | o <;> rw [hR] at hrun
      · simp at hrun
      rcases o with _ | out'
      · simp at hrun
      · have hIle := Int.le_of_dvd (by omega : 0 < size - bmStart) h3
        have hinv1 : nb - I = (min size nb - L) - I + L := by omega
        have hinv2 : bmStart ≤ min size nb - L := by omega
        have hinv3 : I ∣ (min size nb - L) - bmStart := by
          have hmin : min size nb = nb := by omega
          rw [hmin, h1]
          have heq : size - I + L - L - bmStart = (size - bmStart) - I := by ring
          rw [heq]
          exact dvd_sub h3 dvd_rfl
        have hsz := ih (di + max (size - nb) 0 + L) (min size nb - L) (nb - I) out'
          hinv1 hinv2 hinv3 hR
        have hout : out = { out' with
            trace := trU ++ trB ++ out'.trace,
            deletePts := (min size nb - L, tD) :: out'.deletePts } := by
          simpa using hrun.symm
        subst hout
        exact hsz
    · simp only [shrinkLoop, if_neg hlt] at hrun
      have hout : out = ⟨di, size, [], []⟩ := by
        simpa using hrun.symm
      subst hout
      show size = bmStart
      omega

/-- C3 counterexample: stop=3, bm_start=2, bm_length=2, bm_interval=2 is a
valid configuration by the spec's preconditions (bm_start ≥ bm_length, all
streams at least as long as the stated minimums), yet because bm_interval
does not divide stop - bm_start the grow phase overshoots: it ends with
insert_index = 4, not stop = 3. -/
theorem claim_C3_counterexample :
    sidBenchmark (fun _ _ _ => 1) [10, 11, 12, 13] [20, 21, 22, 23] [30, 31, 32]
      3 2 2 2 =
    .ok (some ⟨[(.insert, 20), (.insert, 21), (.search, 10), (.search, 11),
        (.insert, 22), (.insert, 23), (.delete, 30), (.delete, 31)],
      [(2, 1/2)], [(2, 1/2)], [(2, 1/2)], 4, 2⟩) ∧ (4 : ℤ) ≠ 3 := by
  constructor
  · norm_num [sidBenchmark, growLoop, shrinkLoop, benchCalls, sidBenchmarkCall,
      pyGet, intRange, exceptMapList, List.range_succ]
    decide
  · decide

/-- C3 amended: for every SID benchmark run that completes normally, under
bm_length ≤ bm_interval, bm_start ≤ stop and bm_interval ∣ (stop -
bm_start), the grow phase ends with insert_index = stop and the shrink
phase ends with the tracked size equal to bm_start. -/
theorem claim_C3_sid_alignment (time : SIDTimeOracle) (ss ins ds : List ℤ)
    (stop bmStart L I : ℤ) (hLI : L ≤ I) (hbs : bmStart ≤ stop)
    (hdvd : I ∣ stop - bmStart) :
    ∀ r : SIDResult, sidBenchmark time ss ins ds stop bmStart L I = .ok (some r) →
      r.growEndII = stop ∧ r.finalSize = bmStart := by
  intro r hrun
  by_cases hguard : bmStart < L
  · rw [sidBenchmark, if_pos hguard] at hrun
    cases hrun
  rw [sidBenchmark, if_neg hguard] at hrun
  rcases hr0 : benchCalls .insert ins 0 bmStart with e | trR <;> rw [hr0] at hrun
  · simp at hrun
  rcases hg : growLoop time ss ins stop L I ((stop - bmStart).toNat + 1)
      0 bmStart bmStart none with e | og <;> rw [hg] at hrun
  · simp at hrun
  rcases og with _ | g
  · simp at hrun
  obtain ⟨hgii, hglb⟩ := growLoop_aligned time ss ins stop L I hLI
    ((stop - bmStart).toNat + 1) 0 bmStart bmStart none g rfl hbs hdvd hg
  dsimp only at hrun
  rcases hlb : g.lastB with _ | lb <;> rw [hlb] at hrun
  · simp at hrun
  dsimp only at hrun
  rcases hs : shrinkLoop time ds bmStart L I ((g.ii - bmStart).toNat + 1)
      0 g.ii (lb + L) with e | os <;> rw [hs] at hrun
  · simp at hrun
  rcases os with _ | s
  · simp at hrun
  by_cases hltbs : bmStart < stop
  · rw [if_pos hltbs] at hglb
    rw [hglb] at hlb
    have hlbv : lb = stop - I := (Option.some.inj hlb).symm
    have hsz := shrinkLoop_aligned time ds bmStart L I hLI
      ((g.ii - bmStart).toNat + 1) 0 g.ii (lb + L) s
      (by rw [hlbv, hgii]) (by rw [hgii]; exact hbs)
      (by rw [hgii]; exact hdvd) hs
    have hout : r = ⟨trR ++ g.trace ++ s.trace, g.searchPts, g.insertPts,
        s.deletePts, g.ii, s.size⟩ := by
      simpa using hrun.symm
    subst hout
    exact ⟨hgii, hsz⟩
  · rw [if_neg hltbs] at hglb
    rw [hglb] at hlb
    cases hlb

/-- Witness for C3 (amended) at the completing run of `sidRunExample`:
stop=4, bm_start=2, bm_length=2, bm_interval=2 with 2 ∣ 4 - 2. -/
theorem claim_C3_witness :
    (⟨[(.insert, 20), (.insert, 21), (.search, 10), (.search, 11),
        (.insert, 22), (.insert, 23), (.delete, 30), (.delete, 31)],
      [(2, 1/2)], [(2, 1/2)], [(2, 1/2)], 4, 2⟩ : SIDResult).growEndII = 4 ∧
    (⟨[(.insert, 20), (.insert, 21), (.search, 10), (.search, 11),
        (.insert, 22), (.insert, 23), (.delete, 30), (.delete, 31)],
      [(2, 1/2)], [(2, 1/2)], [(2, 1/2)], 4, 2⟩ : SIDResult).finalSize = 2 :=
  claim_C3_sid_alignment (fun _ _ _ => 1) [10, 11, 12] [20, 21, 22, 23]
    [30, 31, 32, 33] 4 2 2 2 (by decide) (by decide) (by decide) _ sidRunExample

/-- C5 counterexample: the run of `sidRunExample` violates the stated
search-stream precondition — len(search_samples) = 3 <
ceil((stop-bm_start)/bm_interval + 1)·bm_length = ((4-2)/2 + 1)·2 = 4 —
yet completes normally with full output instead of aborting. -/
theorem claim_C5_counterexample :
    ((([10, 11, 12] : List ℤ).length : ℤ) < (((4 : ℤ) - 2) / 2 + 1) * 2) ∧
    sidBenchmark (fun _ _ _ => 1) [10, 11, 12] [20, 21, 22, 23] [30, 31, 32, 33]
      4 2 2 2 =
    .ok (some ⟨[(.insert, 20), (.insert, 21), (.search, 10), (.search, 11),
        (.insert, 22), (.insert, 23), (.delete, 30), (.delete, 31)],
      [(2, 1/2)], [(2, 1/2)], [(2, 1/2)], 4, 2⟩) :=
  ⟨by decide, sidRunExample⟩

/-- C5 amended: the only precondition SIDBenchmark checks up front is
`bm_start ≥ bm_length`; violating it aborts with the configuration
ValueError and no output, for every value of the other parameters.  The
sample-length preconditions are not checked: a too-short stream aborts a
run only when an out-of-range index is actually read, and there are
configurations violating the stated length bounds that complete normally
(second conjunct). -/
theorem claim_C5_precondition_guard :
    (∀ (time : SIDTimeOracle) (ss ins ds : List ℤ) (stop bmStart L I : ℤ),
      bmStart < L →
      sidBenchmark time ss ins ds stop bmStart L I =
        .error (.valueError "bm_start must be no smaller than bm_length.")) ∧
    (∃ r : SIDResult,
      sidBenchmark (fun _ _ _ => 1) [10, 11, 12] [20, 21, 22, 23] [30, 31, 32, 33]
        4 2 2 2 = .ok (some r)) := by
  constructor
  · intro time ss ins ds stop bmStart L I hguard
    rw [sidBenchmark, if_pos hguard]
  · exact ⟨_, sidRunExample⟩

/-- Witness for C5 (amended): bm_start = 0 < 1 = bm_length aborts with the
configuration ValueError. -/
theorem claim_C5_witness :
    sidBenchmark (fun _ _ _ => 1) [] [] [] 0 0 1 1 =
      .error (.valueError "bm_start must be no smaller than bm_length.") :=
  claim_C5_precondition_guard.1 (fun _ _ _ => 1) [] [] [] 0 0 1 1 (by decide)

/-!
### `MixedSIDBenchmarkPlot` (src/mixedsidbenchmarkplot.py)
-/

/-- `MixedSIDBenchmarkPlot.doOperation` (lines 139-149): dispatch on the
tag (`SEARCH = 1`, `INSERT = 2`, `DELETE = 3`), raising a ValueError on
any other tag; modelled as returning the dispatched call. -/
def doOperation (op : ℤ × ℤ) : Except PyError (SIDOp × ℤ) :=
  if op.1 = 1 then .ok (.search, op.2)
  else if op.1 = 2 then .ok (.insert, op.2)
  else if op.1 = 3 then .ok (.delete, op.2)
  else .error (.valueError
    "op must be one of the constants for specifying operations listed in MixedSIDBenchmarkPlot.")

/-- `MixedSIDBenchmarkPlot._simOp` (lines 84-93): the change in data
structure size for a tag — 0 for SEARCH, +1 for INSERT, -1 for DELETE —
raising a ValueError on any other tag. -/
def simOp (op : ℤ) : Except PyError ℤ :=
  if op = 1 then .ok 0
  else if op = 2 then .ok 1
  else if op = 3 then .ok (-1)
  else .error (.valueError
    "op must be one of the constants for specifying operations listed in MixedSIDBenchmarkPlot.")

/-- `operations[i]` for the 0-based indices used by the replay loops. -/
def opsGet (ops : List (ℤ × ℤ)) (i : ℕ) : Except PyError (ℤ × ℤ) :=
  if h : i < ops.length then .ok (ops.get ⟨i, h⟩) else .error .indexError

/-- Dispatch `doOperation` on `operations[i]` for each `i` in a list of
indices, collecting the call trace. -/
def dispatchCalls (ops : List (ℤ × ℤ)) (idxs : List ℕ) :
    Except PyError (List (SIDOp × ℤ)) :=
  exceptMapList (fun i =>
    match opsGet ops i with
    | .error e => .error e
    | .ok op => doOperation op) idxs

/-- The `while p < len(operations)` loop of `MixedSIDBenchmarkPlot.__init__`
(lines 117-137), with fuel: the same windowed schedule as
`BenchmarkPlot._doBenchmark`, but dispatching each operation tag through
`doOperation`. -/
def mixedLoop (time : TimeOracle) (ops : List (ℤ × ℤ)) (L I : ℕ) :
    ℕ → ℕ → Except PyError (Option (List (SIDOp × ℤ) × List (ℕ × ℚ)))
  | 0, _ => .ok none
  | fuel + 1, p =>
    if p < ops.length then
      match dispatchCalls ops (List.range' p (min (p + L) ops.length - p)) with
      | .error e => .error e
      | .ok trB =>
        if min (p + L) ops.length - p = 0 then .error .zeroDivisionError
        else
          match dispatchCalls ops (List.range' (min (p + L) ops.length)
              (min (p + I) ops.length - min (p + L) ops.length)) with
          | .error e => .error e
          | .ok trU =>
            match mixedLoop time ops L I fuel (min (p + I) ops.length) with
            | .error e => .error e
            | .ok none => .ok none
            | .ok (some (tr, cds)) =>
              .ok (some (trB ++ trU ++ tr,
                (p, time p (min (p + L) ops.length) /
                  ((min (p + L) ops.length - p : ℕ) : ℚ)) :: cds))
    else
      .ok (some ([], []))

/-- `MixedSIDBenchmarkPlot.__init__(operations, search, insert, delete,
bm_start, bm_length, bm_interval)`: dispatch `operations[0, bm_start)`
untimed, then run the windowed replay loop. -/
def mixedInit (time : TimeOracle) (ops : List (ℤ × ℤ)) (bmStart L I : ℕ) :
    Except PyError (Option (List (SIDOp × ℤ) × List (ℕ × ℚ))) :=
  match dispatchCalls ops (List.range bmStart) with
  | .error e => .error e
  | .ok trR =>
    match mixedLoop time ops L I (ops.length + 1) bmStart with
    | .error e => .error e
    | .ok none => .ok none
    | .ok (some (tr, cds)) => .ok (some (trR ++ tr, cds))

/-- C8: in the mixed-operation replay, both the timed dispatch
(`doOperation`) and the size simulation (`_simOp`) succeed exactly on the
tags SEARCH = 1, INSERT = 2, DELETE = 3, and raise the fatal dispatch
ValueError on every other tag. -/
theorem claim_C8_dispatch_errors :
    (∀ op : ℤ × ℤ, (∃ c, doOperation op = .ok c) ↔ (op.1 = 1 ∨ op.1 = 2 ∨ op.1 = 3)) ∧
    (∀ op : ℤ × ℤ, ¬(op.1 = 1 ∨ op.1 = 2 ∨ op.1 = 3) →
      doOperation op = .error (.valueError
        "op must be one of the constants for specifying operations listed in MixedSIDBenchmarkPlot.")) ∧
    (∀ t : ℤ, (∃ d, simOp t = .ok d) ↔ (t = 1 ∨ t = 2 ∨ t = 3)) ∧
    (∀ t : ℤ, ¬(t = 1 ∨ t = 2 ∨ t = 3) →
      simOp t = .error (.valueError
        "op must be one of the constants for specifying operations listed in MixedSIDBenchmarkPlot.")) := by
  refine ⟨?_, ?_, ?_, ?_⟩
  · intro op
    unfold doOperation
    split_ifs with h1 h2 h3 <;> simp_all
  · intro op hop
    unfold doOperation
    split_ifs with h1 h2 h3 <;> simp_all
  · intro t
    unfold simOp
    split_ifs with h1 h2 h3 <;> simp_all
  · intro t ht
    unfold simOp
    split_ifs with h1 h2 h3 <;> simp_all

/-- Success-conditioned lower bound and strict monotonicity of the search
and insert plot positions produced by the grow phase: every recorded
position is at least the current `insert_index`, and positions strictly
increase (each iteration advances `insert_index` by at least
`bm_length ≥ 1`). -/
lemma growLoop_points (time : SIDTimeOracle) (ss ins : List ℤ) (stop L I : ℤ)
    (hL : 1 ≤ L) :
    ∀ (fuel : ℕ) (si ii nb : ℤ) (lastB : Option ℤ) (out : GrowOut),
      growLoop time ss ins stop L I fuel si ii nb lastB = .ok (some out) →
      (∀ x ∈ out.searchPts.map Prod.fst, ii ≤ x) ∧
      (∀ x ∈ out.insertPts.map Prod.fst, ii ≤ x) ∧
      (out.searchPts.map Prod.fst).Pairwise (· < ·) ∧
      (out.insertPts.map Prod.fst).Pairwise (· < ·) := by
  intro fuel
  induction fuel with
  | zero =>
    intro si ii nb lastB out hrun
    simp [growLoop] at hrun
  | succ fuel ih =>
    intro si ii nb lastB out hrun
    by_cases hlt : ii < stop
    · simp only [growLoop, if_pos hlt] at hrun
      rcases hS : sidBenchmarkCall time .search ss si (si + L) with e | vS <;>
        rw [hS] at hrun
      · simp at hrun
      rcases vS with ⟨trS, tS⟩
      rcases hI2 : sidBenchmarkCall time .insert ins ii (ii + L) with e | vI <;>
        rw [hI2] at hrun
      · simp at hrun
      rcases vI with ⟨trI, tI⟩
      rcases hU : benchCalls .insert ins (ii + L) (min (nb + I) stop) with e | trU <;>
        rw [hU] at hrun
      · simp at hrun
      rcases hR : growLoop time ss ins stop L I fuel (si + L)
          (max (ii + L) (min (nb + I) stop)) (min (nb + I) stop) (some nb) with
          e | o <;> rw [hR] at hrun
      · simp at hrun
      rcases o with _ | out'
      · simp at hrun
      obtain ⟨ihS, ihI, ihSP, ihIP⟩ := ih _ _ _ _ out' hR
      have hout : out = { out' with
          trace := trS ++ trI ++ trU ++ out'.trace,
          searchPts := (ii, tS) :: out'.searchPts,
          insertPts := (ii, tI) :: out'.insertPts } := by
        simpa using hrun.symm
      subst hout
      have hstep : ii + 1 ≤ max (ii + L) (min (nb + I) stop) := by omega
      refine ⟨?_, ?_, ?_, ?_⟩
      · intro x hx
        simp only [List.map_cons, List.mem_cons] at hx
        rcases hx with rfl | hx
        · exact le_refl _
        · have := ihS x hx
          omega
      · intro x hx
        simp only [List.map_cons, List.mem_cons] at hx
        rcases hx with rfl | hx
        · exact le_refl _
        · have := ihI x hx
          omega
      · simp only [List.map_cons, List.pairwise_cons]
        refine ⟨fun x hx => ?_, ihSP⟩
        have := ihS x hx
        omega
      · simp only [List.map_cons, List.pairwise_cons]
        refine ⟨fun x hx => ?_, ihIP⟩
        have := ihI x hx
        omega
    · simp only [growLoop, if_neg hlt] at hrun
      have hout : out = ⟨si, ii, lastB, [], [], []⟩ := by
        simpa using hrun.symm
      subst hout
      simp

/-- Success-conditioned upper bound and strict decrease of the delete plot
positions produced by the shrink phase: every recorded position is at most
the first point's position, and positions strictly decrease (each
iteration lowers the size by at least `bm_length ≥ 1`). -/
lemma shrinkLoop_points (time : SIDTimeOracle) (ds : List ℤ) (bmStart L I : ℤ)
    (hL : 1 ≤ L) :
    ∀ (fuel : ℕ) (di size nb : ℤ) (out : ShrinkOut),
      shrinkLoop time ds bmStart L I fuel di size nb = .ok (some out) →
      (∀ x ∈ out.deletePts.map Prod.fst, x ≤ min size nb - L) ∧
      (out.deletePts.map Prod.fst).Pairwise (· > ·) := by
  intro fuel
  induction fuel with
  | zero =>
    intro di size nb out hrun
    simp [shrinkLoop] at hrun
  | succ fuel ih =>
    intro di size nb out hrun
    by_cases hlt : bmStart < size
    · simp only [shrinkLoop, if_pos hlt] at hrun
      rcases hU : benchCalls .delete ds di (di + max (size - nb) 0) with e | trU <;>
        rw [hU] at hrun
      · simp at hrun
      rcases hB : sidBenchmarkCall time .delete ds (di + max (size - nb) 0)
          (di + max (size - nb) 0 + L) with e | vB <;> rw [hB] at hrun
      · simp at hrun
      rcases vB with ⟨trB, tD⟩
      rcases hR : shrinkLoop time ds bmStart L I fuel (di + max (size - nb) 0 + L)
          (min size nb - L) (nb - I) with e | o <;> rw [hR] at hrun
      · simp at hrun
      rcases o with _ | out'
      · simp at hrun
      obtain ⟨ihD, ihDP⟩ := ih _ _ _ out' hR
      have hout : out = { out' with
          trace := trU ++ trB ++ out'.trace,
          deletePts := (min size nb - L, tD) :: out'.deletePts } := by
        simpa using hrun.symm
      subst hout
      refine ⟨?_, ?_⟩
      · intro x hx
        simp only [List.map_cons, List.mem_cons] at hx
        rcases hx with rfl | hx
        · exact le_refl _
        · have := ihD x hx
          omega
      · simp only [List.map_cons, List.pairwise_cons]
        refine ⟨fun x hx => ?_, ihDP⟩
        have := ihD x hx
        simp only [gt_iff_lt]
        omega
    · simp only [shrinkLoop, if_neg hlt] at hrun
      have hout : out = ⟨di, size, [], []⟩ := by
        simpa using hrun.symm
      subst hout
      simp

/-- Success-conditioned lower bound and strict monotonicity of the
positions recorded by the mixed replay loop. -/
lemma mixedLoop_points (time : TimeOracle) (ops : List (ℤ × ℤ)) (L I : ℕ)
    (hI : 1 ≤ I) :
    ∀ (fuel p : ℕ) (tr : List (SIDOp × ℤ)) (cds : List (ℕ × ℚ)),
      mixedLoop time ops L I fuel p = .ok (some (tr, cds)) →
      (∀ x ∈ cds.map Prod.fst, p ≤ x) ∧ (cds.map Prod.fst).Pairwise (· < ·) := by
  intro fuel
  induction fuel with
  | zero =>
    intro p tr cds hrun
    simp [mixedLoop] at hrun
  | succ fuel ih =>
    intro p tr cds hrun
    by_cases hlt : p < ops.length
    · simp only [mixedLoop, if_pos hlt] at hrun
      rcases hB : dispatchCalls ops
          (List.range' p (min (p + L) ops.length - p)) with e | trB <;>
        rw [hB] at hrun
      · simp at hrun
      dsimp only at hrun
      by_cases hz : min (p + L) ops.length - p = 0
      · rw [if_pos hz] at hrun
        simp at hrun
      rw [if_neg hz] at hrun
      rcases hUc : dispatchCalls ops (List.range' (min (p + L) ops.length)
          (min (p + I) ops.length - min (p + L) ops.length)) with e | trU <;>
        rw [hUc] at hrun
      · simp at hrun
      rcases hR : mixedLoop time ops L I fuel (min (p + I) ops.length) with e | o <;>
        rw [hR] at hrun
      · simp at hrun
      rcases o with _ | v
      · simp at hrun
      rcases v with ⟨tr', cds'⟩
      obtain ⟨ihB, ihP⟩ := ih (min (p + I) ops.length) tr' cds' hR
      have hcds : cds = (p, time p (min (p + L) ops.length) /
          ((min (p + L) ops.length - p : ℕ) : ℚ)) :: cds' := by
        simp at hrun
        exact hrun.2.symm
      subst hcds
      have hstep : p + 1 ≤ min (p + I) ops.length := by omega
      refine ⟨?_, ?_⟩
      · intro x hx
        simp only [List.map_cons, List.mem_cons] at hx
        rcases hx with rfl | hx
        · exact le_refl _
        · have := ihB x hx
          omega
      · simp only [List.map_cons, List.pairwise_cons]
        refine ⟨fun x hx => ?_, ihP⟩
        have := ihB x hx
        omega
    · simp only [mixedLoop, if_neg hlt] at hrun
      have : cds = [] := by
        simp at hrun
        exact hrun.2
      subst this
      simp

/-- A fully evaluated `SIDBenchmark` run with two points per plot: stop=6,
bm_start=2, bm_length=1, bm_interval=2, constant unit time oracle.  The
search and insert plots record positions 2, 4 (increasing); the delete
plot records positions 4, 2 (decreasing). -/
lemma sidRunDecr :
    sidBenchmark (fun _ _ _ => 1) [10, 11] [20, 21, 22, 23, 24, 25] [30, 31, 32, 33]
      6 2 1 2 =
    .ok (some ⟨[(.insert, 20), (.insert, 21), (.search, 10), (.insert, 22),
        (.insert, 23), (.search, 11), (.insert, 24), (.insert, 25),
        (.delete, 30), (.delete, 31), (.delete, 32), (.delete, 33)],
      [(2, 1), (4, 1)], [(2, 1), (4, 1)], [(4, 1), (2, 1)], 6, 2⟩) := by
  norm_num [sidBenchmark, growLoop, shrinkLoop, benchCalls, sidBenchmarkCall,
    pyGet, intRange, exceptMapList, List.range_succ]
  decide

/-- C9 counterexample: in the run of `sidRunDecr` the delete series records
positions 4 then 2 — its successive positions are strictly decreasing, not
strictly increasing as the claim asserts for every series. -/
theorem claim_C9_counterexample :
    sidBenchmark (fun _ _ _ => 1) [10, 11] [20, 21, 22, 23, 24, 25] [30, 31, 32, 33]
      6 2 1 2 =
    .ok (some ⟨[(.insert, 20), (.insert, 21), (.search, 10), (.insert, 22),
        (.insert, 23), (.search, 11), (.insert, 24), (.insert, 25),
        (.delete, 30), (.delete, 31), (.delete, 32), (.delete, 33)],
      [(2, 1), (4, 1)], [(2, 1), (4, 1)], [(4, 1), (2, 1)], 6, 2⟩) ∧
    ¬ (([(4, 1), (2, 1)] : List (ℤ × ℚ)).map Prod.fst).Pairwise (· < ·) := by
  refine ⟨sidRunDecr, ?_⟩
  intro h
  have := (List.pairwise_cons.mp h).1 2 (by simp)
  omega

/-- C9 amended: in every coordinate series produced by a completed
benchmark run, successive positions are strictly increasing — except the
SID delete series, whose positions are strictly decreasing.  Engine series
(with 1 ≤ window_length ≤ window_interval), SID search and insert series
(with 1 ≤ bm_length), and mixed-replay series (with 1 ≤ bm_interval) are
strictly increasing; the SID delete series is strictly decreasing. -/
theorem claim_C9_positions :
    (∀ (time : TimeOracle) (start stop ws L I : ℕ), start ≤ ws → ws ≤ stop →
      1 ≤ L → L ≤ I →
      ∀ (tr : List ℕ) (cds : List (ℕ × ℚ)),
        doBenchmark time start stop ws L I = .ok (some (tr, cds)) →
        (cds.map Prod.fst).Pairwise (· < ·)) ∧
    (∀ (time : SIDTimeOracle) (ss ins ds : List ℤ) (stop bmStart L I : ℤ),
      1 ≤ L →
      ∀ r : SIDResult, sidBenchmark time ss ins ds stop bmStart L I = .ok (some r) →
        (r.searchPts.map Prod.fst).Pairwise (· < ·) ∧
        (r.insertPts.map Prod.fst).Pairwise (· < ·) ∧
        (r.deletePts.map Prod.fst).Pairwise (· > ·)) ∧
    (∀ (time : TimeOracle) (ops : List (ℤ × ℤ)) (bmStart L I : ℕ),
      1 ≤ I →
      ∀ (tr : List (SIDOp × ℤ)) (cds : List (ℕ × ℚ)),
        mixedInit time ops bmStart L I = .ok (some (tr, cds)) →
        (cds.map Prod.fst).Pairwise (· < ·)) := by
  refine ⟨?_, ?_, ?_⟩
  · intro time start stop ws L I h1 h2 hL hLI tr cds hrun
    obtain ⟨cds0, heq, hchar, hiff⟩ :=
      doBenchmark_char time start stop ws L I h1 h2 hL hLI
    rw [hrun] at heq
    have hcds : cds = cds0 := (Prod.ext_iff.mp (Option.some.inj (Except.ok.inj heq))).2
    subst hcds
    have hpos : cds.map Prod.fst = (List.range cds.length).map (fun k => ws + k * I) := by
      conv_lhs => rw [hchar]
      simp [List.map_map, Function.comp]
    rw [hpos]
    refine List.Pairwise.map _ ?_ (List.pairwise_lt_range _)
    intro a b hab
    have hIpos : 0 < I := by omega
    have hmul : a * I < b * I := mul_lt_mul_of_pos_right hab hIpos
    omega
  · intro time ss ins ds stop bmStart L I hL r hrun
    by_cases hguard : bmStart < L
    · rw [sidBenchmark, if_pos hguard] at hrun
      cases hrun
    rw [sidBenchmark, if_neg hguard] at hrun
    rcases hr0 : benchCalls .insert ins 0 bmStart with e | trR <;> rw [hr0] at hrun
    · simp at hrun
    rcases hg : growLoop time ss ins stop L I ((stop - bmStart).toNat + 1)
        0 bmStart bmStart none with e | og <;> rw [hg] at hrun
    · simp at hrun
    rcases og with _ | g
    · simp at hrun
    dsimp only at hrun
    rcases hlb : g.lastB with _ | lb <;> rw [hlb] at hrun
    · simp at hrun
    dsimp only at hrun
    rcases hs : shrinkLoop time ds bmStart L I ((g.ii - bmStart).toNat + 1)
        0 g.ii (lb + L) with e | os <;> rw [hs] at hrun
    · simp at hrun
    rcases os with _ | s
    · simp at hrun
    obtain ⟨_, _, hSP, hIP⟩ := growLoop_points time ss ins stop L I hL _ _ _ _ _ g hg
    obtain ⟨_, hDP⟩ := shrinkLoop_points time ds bmStart L I hL _ _ _ _ s hs
    have hout : r = ⟨trR ++ g.trace ++ s.trace, g.searchPts, g.insertPts,
        s.deletePts, g.ii, s.size⟩ := by
      simpa using hrun.symm
    subst hout
    exact ⟨hSP, hIP, hDP⟩
  · intro time ops bmStart L I hI tr cds hrun
    rw [mixedInit] at hrun
    rcases hd : dispatchCalls ops (List.range bmStart) with e | trR <;> rw [hd] at hrun
    · simp at hrun
    rcases hm : mixedLoop time ops L I (ops.length + 1) bmStart with e | o <;>
      rw [hm] at hrun
    · simp at hrun
    rcases o with _ | v
    · simp at hrun
    rcases v with ⟨tr', cds'⟩
    have hcds : cds = cds' := by
      simp at hrun
      exact hrun.2.symm
    subst hcds
    exact (mixedLoop_points time ops L I hI _ _ _ _ hm).2

/-- Witness for C9 (amended) at the run of `sidRunDecr`: search and insert
positions [2, 4] strictly increase, delete positions [4, 2] strictly
decrease. -/
theorem claim_C9_witness :
    ((⟨[(.insert, 20), (.insert, 21), (.search, 10), (.insert, 22),
        (.insert, 23), (.search, 11), (.insert, 24), (.insert, 25),
        (.delete, 30), (.delete, 31), (.delete, 32), (.delete, 33)],
      [(2, 1), (4, 1)], [(2, 1), (4, 1)], [(4, 1), (2, 1)], 6, 2⟩ :
        SIDResult).searchPts.map Prod.fst).Pairwise (· < ·) ∧
    ((⟨[(.insert, 20), (.insert, 21), (.search, 10), (.insert, 22),
        (.insert, 23), (.search, 11), (.insert, 24), (.insert, 25),
        (.delete, 30), (.delete, 31), (.delete, 32), (.delete, 33)],
      [(2, 1), (4, 1)], [(2, 1), (4, 1)], [(4, 1), (2, 1)], 6, 2⟩ :
        SIDResult).insertPts.map Prod.fst).Pairwise (· < ·) ∧
    ((⟨[(.insert, 20), (.insert, 21), (.search, 10), (.insert, 22),
        (.insert, 23), (.search, 11), (.insert, 24), (.insert, 25),
        (.delete, 30), (.delete, 31), (.delete, 32), (.delete, 33)],
      [(2, 1), (4, 1)], [(2, 1), (4, 1)], [(4, 1), (2, 1)], 6, 2⟩ :
        SIDResult).deletePts.map Prod.fst).Pairwise (· > ·) :=
  claim_C9_positions.2.1 (fun _ _ _ => 1) [10, 11] [20, 21, 22, 23, 24, 25]
    [30, 31, 32, 33] 6 2 1 2 (by decide) _ sidRunDecr

/-!
### `SIDBenchmark` (src/plot.py, lines 187-379)

`plot.py` contains its own `SIDBenchmark` class whose body is
token-for-token identical to the one in `sidgraphset.py` (the only
difference between the two classes is one word in a docstring); both call
the shared `Plot.benchmark`.  It is embedded separately below, mirroring
the structure of `growLoop`/`shrinkLoop`/`sidBenchmark` above.
-/

/-- Grow phase of `SIDBenchmark._doBenchmark` from src/plot.py (lines
304-344). -/
def growLoopPlot (time : SIDTimeOracle) (ss ins : List ℤ) (stop L I : ℤ) :
    ℕ → ℤ → ℤ → ℤ → Option ℤ → Except PyError (Option GrowOut)
  | 0, _, _, _, _ => .ok none
  | fuel + 1, si, ii, nb, lastB =>
    if ii < stop then
      match sidBenchmarkCall time .search ss si (si + L) with
      | .error e => .error e
      | .ok (trS, tS) =>
        match sidBenchmarkCall time .insert ins ii (ii + L) with
        | .error e => .error e
        | .ok (trI, tI) =>
          match benchCalls .insert ins (ii + L) (min (nb + I) stop) with
          | .error e => .error e
          | .ok trU =>
            match growLoopPlot time ss ins stop L I fuel (si + L)
                (max (ii + L) (min (nb + I) stop)) (min (nb + I) stop) (some nb) with
            | .error e => .error e
            | .ok none => .ok none
            | .ok (some out) =>
              .ok (some { out with
                trace := trS ++ trI ++ trU ++ out.trace,
                searchPts := (ii, tS) :: out.searchPts,
                insertPts := (ii, tI) :: out.insertPts })
    else
      .ok (some ⟨si, ii, lastB, [], [], []⟩)

/-- Shrink phase of `SIDBenchmark._doBenchmark` from src/plot.py (lines
349-378). -/
def shrinkLoopPlot (time : SIDTimeOracle) (ds : List ℤ) (bmStart L I : ℤ) :
    ℕ → ℤ → ℤ → ℤ → Except PyError (Option ShrinkOut)
  | 0, _, _, _ => .ok none
  | fuel + 1, di, size, nb =>
    if bmStart < size then
      match benchCalls .delete ds di (di + max (size - nb) 0) with
      | .error e => .error e
      | .ok trU =>
        match sidBenchmarkCall time .delete ds (di + max (size - nb) 0)
            (di + max (size - nb) 0 + L) with
        | .error e => .error e
        | .ok (trB, tD) =>
          match shrinkLoopPlot time ds bmStart L I fuel (di + max (size - nb) 0 + L)
              (min size nb - L) (nb - I) with
          | .error e => .error e
          | .ok none => .ok none
          | .ok (some out) =>
            .ok (some { out with
              trace := trU ++ trB ++ out.trace,
              deletePts := (min size nb - L, tD) :: out.deletePts })
    else
      .ok (some ⟨di, size, [], []⟩)

/-- `SIDBenchmark.__init__` + `_doBenchmark` from src/plot.py (lines
191-379). -/
def sidBenchmarkPlotPy (time : SIDTimeOracle) (ss ins ds : List ℤ)
    (stop bmStart L I : ℤ) : Except PyError (Option SIDResult) :=
  if bmStart < L then
    .error (.valueError "bm_start must be no smaller than bm_length.")
  else
    match benchCalls .insert ins 0 bmStart with
    | .error e => .error e
    | .ok trR =>
      match growLoopPlot time ss ins stop L I ((stop - bmStart).toNat + 1)
          0 bmStart bmStart none with
      | .error e => .error e
      | .ok none => .ok none
      | .ok (some g) =>
        match g.lastB with
        | none => .error .nameError
        | some lb =>
          match shrinkLoopPlot time ds bmStart L I ((g.ii - bmStart).toNat + 1)
              0 g.ii (lb + L) with
          | .error e => .error e
          | .ok none => .ok none
          | .ok (some s) =>
            .ok (some ⟨trR ++ g.trace ++ s.trace, g.searchPts, g.insertPts,
              s.deletePts, g.ii, s.size⟩)

lemma growLoopPlot_eq_growLoop (time : SIDTimeOracle) (ss ins : List ℤ)
    (stop L I : ℤ) :
    ∀ (fuel : ℕ) (si ii nb : ℤ) (lastB : Option ℤ),
      growLoopPlot time ss ins stop L I fuel si ii nb lastB =
        growLoop time ss ins stop L I fuel si ii nb lastB := by
  intro fuel
  induction fuel with
  | zero => intro si ii nb lastB; rfl
  | succ fuel ih =>
    intro si ii nb lastB
    simp only [growLoopPlot, growLoop, ih]

lemma shrinkLoopPlot_eq_shrinkLoop (time : SIDTimeOracle) (ds : List ℤ)
    (bmStart L I : ℤ) :
    ∀ (fuel : ℕ) (di size nb : ℤ),
      shrinkLoopPlot time ds bmStart L I fuel di size nb =
        shrinkLoop time ds bmStart L I fuel di size nb := by
  intro fuel
  induction fuel with
  | zero => intro di size nb; rfl
  | succ fuel ih =>
    intro di size nb
    simp only [shrinkLoopPlot, shrinkLoop, ih]

/-- C10: the `SIDBenchmark` classes of plot.py and sidgraphset.py are
behaviorally equivalent — for every operation triple (time oracle), sample
streams and configuration, the two runs produce identical outcomes:
identical call traces, identical search/insert/delete coordinate series,
and the same error when one is raised. -/
theorem claim_C10_sid_equivalence (time : SIDTimeOracle) (ss ins ds : List ℤ)
    (stop bmStart L I : ℤ) :
    sidBenchmarkPlotPy time ss ins ds stop bmStart L I =
      sidBenchmark time ss ins ds stop bmStart L I := by
  simp only [sidBenchmarkPlotPy, sidBenchmark, growLoopPlot_eq_growLoop,
    shrinkLoopPlot_eq_shrinkLoop]

/-!
### `MixedSIDBenchmarkPlot.plotSizes` (src/mixedsidbenchmarkplot.py, lines 19-82)
-/

/-- The loop `for index in range(current_benchmark + 1, end_of_benchmark)`
of `plotSizes`: each step appends `bm_sizes[-1] + _simOp(op(index))`. -/
def buildSizes (ops : List (ℤ × ℤ)) : ℤ → List ℕ → Except PyError (List ℤ)
  | _, [] => .ok []
  | acc, i :: idxs =>
    match opsGet ops i with
    | .error e => .error e
    | .ok op =>
      match simOp op.1 with
      | .error e => .error e
      | .ok d =>
        match buildSizes ops (acc + d) idxs with
        | .error e => .error e
        | .ok rest => .ok ((acc + d) :: rest)

/-- `size += MixedSIDBenchmarkPlot._simOp(op(i))` over a list of indices
(the ramp-up loop and the cool-down loop of `plotSizes`). -/
def accumDeltas (ops : List (ℤ × ℤ)) : ℤ → List ℕ → Except PyError ℤ
  | s, [] => .ok s
  | s, i :: idxs =>
    match opsGet ops i with
    | .error e => .error e
    | .ok op =>
      match simOp op.1 with
      | .error e => .error e
      | .ok d => accumDeltas ops (s + d) idxs

/-- The `while current_benchmark < len(operations)` loop of `plotSizes`
(lines 43-81), with fuel: at each window, build `bm_sizes` (first element
by hand, then the build loop over the truncated window), plot
`(current_benchmark, median(bm_sizes))`, continue with `size =
bm_sizes[-1]`, accumulate deltas untimed up to the next benchmark. -/
def plotSizesLoop (ops : List (ℤ × ℤ)) (L I : ℕ) :
    ℕ → ℕ → ℤ → Except PyError (Option (List (ℕ × ℚ)))
  | 0, _, _ => .ok none
  | fuel + 1, cur, size =>
    if cur < ops.length then
      match opsGet ops cur with
      | .error e => .error e
      | .ok op =>
        match simOp op.1 with
        | .error e => .error e
        | .ok d =>
          match buildSizes ops (size + d)
              (List.range' (cur + 1) (min ops.length (cur + L) - (cur + 1))) with
          | .error e => .error e
          | .ok rest =>
            match accumDeltas ops (((size + d) :: rest).getLastD 0)
                (List.range' (min ops.length (cur + L))
                  (min ops.length (cur + I) - min ops.length (cur + L))) with
            | .error e => .error e
            | .ok size2 =>
              match plotSizesLoop ops L I fuel (min ops.length (cur + I)) size2 with
              | .error e => .error e
              | .ok none => .ok none
              | .ok (some pts) =>
                .ok (some ((cur,
                  pyMedian (((size + d) :: rest).map (fun z => (z : ℚ)))) :: pts))
    else
      .ok (some [])

/-- `MixedSIDBenchmarkPlot.plotSizes(operations, bm_start, bm_length,
bm_interval)`: simulate the ramp-up sizes over `range(bm_start)`, then run
the windowed size-plot loop. -/
def plotSizes (ops : List (ℤ × ℤ)) (bmStart L I : ℕ) :
    Except PyError (Option (List (ℕ × ℚ))) :=
  match accumDeltas ops 0 (List.range bmStart) with
  | .error e => .error e
  | .ok size0 => plotSizesLoop ops L I (ops.length + 1) bmStart size0

/-- The size delta of a tag as stated by the claim: +1 for Insert (2),
-1 for Delete (3), 0 for Search (1); meaningful on valid tags only. -/
def tagDelta (t : ℤ) : ℤ := if t = 2 then 1 else if t = 3 then -1 else 0

/-- The running partial sums `size+d1, size+d1+d2, ...` of the claim. -/
def runningSums (size : ℤ) : List ℤ → List ℤ
  | [] => []
  | d :: ds => (size + d) :: runningSums (size + d) ds

/-- The deltas of the `n` operations starting at index `a`. -/
def windowDeltas (ops : List (ℤ × ℤ)) (a n : ℕ) : List ℤ :=
  ((ops.drop a).take n).map (fun p => tagDelta p.1)

/-- Specification-side statement of the claim for `plotSizes`: at each
measured window starting at `cur` with (possibly truncated) length
`min len (cur+L) - cur`, the plotted value is the median of the running
partial sums of the window's deltas starting from the running size; the
running size after the window is the final partial sum
(`size + deltas.sum`, see `runningSums_getLastD`); between windows each
operation's delta is accumulated untimed. -/
def plotSizesSpec (ops : List (ℤ × ℤ)) (L I : ℕ) :
    ℕ → ℕ → ℤ → List (ℕ × ℚ)
  | 0, _, _ => []
  | fuel + 1, cur, size =>
    if cur < ops.length then
      (cur, pyMedian ((runningSums size
          (windowDeltas ops cur (min ops.length (cur + L) - cur))).map
            (fun z => (z : ℚ)))) ::
        plotSizesSpec ops L I fuel (min ops.length (cur + I))
          (size + (windowDeltas ops cur (min ops.length (cur + L) - cur)).sum +
            (windowDeltas ops (min ops.length (cur + L))
              (min ops.length (cur + I) - min ops.length (cur + L))).sum)
    else []

/-- The final running partial sum is the running size plus the sum of the
deltas. -/
lemma runningSums_getLastD (ds : List ℤ) :
    ∀ s : ℤ, (runningSums s ds).getLastD s = s + ds.sum := by
  induction ds with
  | nil =>
    intro s
    simp [runningSums]
  | cons d ds ih =>
    intro s
    rw [runningSums, List.getLastD_cons, ih (s + d), List.sum_cons]
    ring

lemma simOp_valid (t : ℤ) (h : t = 1 ∨ t = 2 ∨ t = 3) :
    simOp t = .ok (tagDelta t) := by
  rcases h with rfl | rfl | rfl <;> rfl

lemma opsGet_eq (ops : List (ℤ × ℤ)) (i : ℕ) (h : i < ops.length) :
    opsGet ops i = .ok (ops.getD i (0, 0)) := by
  rw [opsGet, dif_pos h, List.getD_eq_getElem _ _ h]
  rfl

lemma windowDeltas_succ (ops : List (ℤ × ℤ)) (a n : ℕ) (h : a < ops.length) :
    windowDeltas ops a (n + 1) =
      tagDelta (ops.getD a (0, 0)).1 :: windowDeltas ops (a + 1) n := by
  unfold windowDeltas
  rw [List.drop_eq_getElem_cons h, List.take_succ_cons, List.map_cons,
    List.getD_eq_getElem _ _ h]

lemma getD_mem_valid (ops : List (ℤ × ℤ))
    (hvalid : ∀ p ∈ ops, p.1 = 1 ∨ p.1 = 2 ∨ p.1 = 3) (a : ℕ) (h : a < ops.length) :
    (ops.getD a (0, 0)).1 = 1 ∨ (ops.getD a (0, 0)).1 = 2 ∨ (ops.getD a (0, 0)).1 = 3 := by
  rw [List.getD_eq_getElem _ _ h]
  exact hvalid _ (List.getElem_mem h)

lemma accumDeltas_spec (ops : List (ℤ × ℤ))
    (hvalid : ∀ p ∈ ops, p.1 = 1 ∨ p.1 = 2 ∨ p.1 = 3) :
    ∀ (n a : ℕ) (s : ℤ), a + n ≤ ops.length →
      accumDeltas ops s (List.range' a n) = .ok (s + (windowDeltas ops a n).sum) := by
  intro n
  induction n with
  | zero =>
    intro a s h
    simp [accumDeltas, windowDeltas]
  | succ n ih =>
    intro a s h
    have ha : a < ops.length := by omega
    rw [List.range'_succ, accumDeltas, opsGet_eq ops a ha]
    dsimp only
    rw [simOp_valid _ (getD_mem_valid ops hvalid a ha)]
    dsimp only
    rw [windowDeltas_succ ops a n ha,
      ih (a + 1) (s + tagDelta (ops.getD a (0, 0)).1) (by omega), List.sum_cons]
    congr 1
    ring

lemma buildSizes_spec (ops : List (ℤ × ℤ))
    (hvalid : ∀ p ∈ ops, p.1 = 1 ∨ p.1 = 2 ∨ p.1 = 3) :
    ∀ (n a : ℕ) (acc : ℤ), a + n ≤ ops.length →
      buildSizes ops acc (List.range' a n) =
        .ok (runningSums acc (windowDeltas ops a n)) := by
  intro n
  induction n with
  | zero =>
    intro a acc h
    simp [buildSizes, windowDeltas, runningSums]
  | succ n ih =>
    intro a acc h
    have ha : a < ops.length := by omega
    rw [List.range'_succ, buildSizes, opsGet_eq ops a ha]
    dsimp only
    rw [simOp_valid _ (getD_mem_valid ops hvalid a ha)]
    dsimp only
    rw [windowDeltas_succ ops a n ha,
      ih (a + 1) (acc + tagDelta (ops.getD a (0, 0)).1) (by omega)]
    rfl

/-- The windowed size-plot loop computes exactly the specification-side
series: median of running partial sums per window, final partial sum
carried across windows, deltas accumulated untimed in between. -/
lemma plotSizesLoop_spec (ops : List (ℤ × ℤ)) (L I : ℕ)
    (hvalid : ∀ p ∈ ops, p.1 = 1 ∨ p.1 = 2 ∨ p.1 = 3) (hL : 1 ≤ L) (hI : 1 ≤ I) :
    ∀ (fuel cur : ℕ) (size : ℤ), cur ≤ ops.length → ops.length - cur < fuel →
      plotSizesLoop ops L I fuel cur size =
        .ok (some (plotSizesSpec ops L I fuel cur size)) := by
  intro fuel
  induction fuel with
  | zero =>
    intro cur size h1 h2
    omega
  | succ fuel ih =>
    intro cur size h1 h2
    by_cases hlt : cur < ops.length
    · have hwd : windowDeltas ops cur (min ops.length (cur + L) - cur) =
          tagDelta (ops.getD cur (0, 0)).1 ::
            windowDeltas ops (cur + 1) (min ops.length (cur + L) - (cur + 1)) := by
        have hn : min ops.length (cur + L) - cur =
            (min ops.length (cur + L) - (cur + 1)) + 1 := by omega
        rw [hn, windowDeltas_succ ops cur _ hlt]
      simp only [plotSizesLoop, plotSizesSpec, if_pos hlt]
      rw [opsGet_eq ops cur hlt]
      dsimp only
      rw [simOp_valid _ (getD_mem_valid ops hvalid cur hlt)]
      dsimp only
      rw [buildSizes_spec ops hvalid (min ops.length (cur + L) - (cur + 1)) (cur + 1)
        (size + tagDelta (ops.getD cur (0, 0)).1) (by omega)]
      dsimp only
      rw [List.getLastD_cons, runningSums_getLastD]
      rw [accumDeltas_spec ops hvalid
        (min ops.length (cur + I) - min ops.length (cur + L))
        (min ops.length (cur + L)) _ (by omega)]
      dsimp only
      rw [ih (min ops.length (cur + I)) _ (by omega) (by omega)]
      dsimp only
      have harith : size + tagDelta (ops.getD cur (0, 0)).1 +
          (windowDeltas ops (cur + 1) (min ops.length (cur + L) - (cur + 1))).sum +
          (windowDeltas ops (min ops.length (cur + L))
            (min ops.length (cur + I) - min ops.length (cur + L))).sum =
          size + (windowDeltas ops cur (min ops.length (cur + L) - cur)).sum +
          (windowDeltas ops (min ops.length (cur + L))
            (min ops.length (cur + I) - min ops.length (cur + L))).sum := by
        rw [hwd, List.sum_cons]
        ring
      rw [harith, hwd]
      rfl
    · simp only [plotSizesLoop, plotSizesSpec, if_neg hlt]

/-- C4: `plotSizes` realizes exactly the partial-sum/median description:
for every all-valid-tag operation sequence with `bm_start ≤ len`,
`1 ≤ bm_length` and `1 ≤ bm_interval`, the run succeeds and equals the
specification-side series `plotSizesSpec`, whose windows plot the median
of the running partial sums and carry the final partial sum forward
(second conjunct: the final partial sum is `size + deltas.sum`). -/
theorem claim_C4_plotSizes_partial_sums (ops : List (ℤ × ℤ)) (bmStart L I : ℕ)
    (hvalid : ∀ p ∈ ops, p.1 = 1 ∨ p.1 = 2 ∨ p.1 = 3)
    (hbm : bmStart ≤ ops.length) (hL : 1 ≤ L) (hI : 1 ≤ I) :
    plotSizes ops bmStart L I =
      .ok (some (plotSizesSpec ops L I (ops.length + 1) bmStart
        (0 + (windowDeltas ops 0 bmStart).sum))) ∧
    (∀ (s : ℤ) (ds : List ℤ), (runningSums s ds).getLastD s = s + ds.sum) := by
  constructor
  · rw [plotSizes, List.range_eq_range',
      accumDeltas_spec ops hvalid bmStart 0 0 (by omega)]
    dsimp only
    rw [plotSizesLoop_spec ops L I hvalid hL hI (ops.length + 1) bmStart _ hbm (by omega)]
  · intro s ds
    exact runningSums_getLastD ds s

/-- Witness for C4 on a concrete mixed sequence:
[INSERT, INSERT, SEARCH, DELETE, INSERT] with bm_start=1, bm_length=2,
bm_interval=3. -/
theorem claim_C4_witness :
    plotSizes [(2, 0), (2, 0), (1, 0), (3, 0), (2, 0)] 1 2 3 =
      .ok (some (plotSizesSpec [(2, 0), (2, 0), (1, 0), (3, 0), (2, 0)] 2 3 6 1
        (0 + (windowDeltas [(2, 0), (2, 0), (1, 0), (3, 0), (2, 0)] 0 1).sum))) :=
  (claim_C4_plotSizes_partial_sums [(2, 0), (2, 0), (1, 0), (3, 0), (2, 0)] 1 2 3
    (by decide) (by decide) (by decide) (by decide)).1
